import Mathlib

/-!
# TPA: worker tasks, router paths, socket replies and the queue update handler

A shallow embedding of the Go sources

* `processor/worker.go`   (`Worker`, `Worker.sleep`, `Worker.Start`)
* `processor/tasks.go`    (`pollingWorkerTask`, `titleWorkerTask`)
* `processor/processor.go` (`PollInputSource`)
* `api/router.go`         (`buildRoutes`)
* `api/httpGateway.go`    (`HttpQueueUpdate`)
* `ws/socketMessage.go`   (`FormReply`)

Code that blocks or calls into the queue is embedded by explicit state passing
over an abstract world `σ`; loops take a fuel argument and record the calls
they make in a trace.
-/

namespace TPA

/-! # Definitions -/

/-! ## Shared data types -/

/-- Modelled from the spec: the `PipelineStage` enumeration, whose declaration is
not among the sources. The spec orders the stages
`Import → Title → MetadataLookup → Format → Complete`; `tasks.go` names the
second and third `Title` and `OMDB`. -/
inductive PipelineStage
  | Import | Title | OMDB | Format | Complete
  deriving DecidableEq, Repr

/-- Modelled from the spec: the position of a stage in the strict total order
`Import → Title → MetadataLookup → Format → Complete`. -/
def PipelineStage.order : PipelineStage → Nat
  | .Import => 0
  | .Title => 1
  | .OMDB => 2
  | .Format => 3
  | .Complete => 4

/-- Modelled from the spec: the first stage of the pipeline order. -/
def firstStage : PipelineStage := .Import

/-- Modelled from the spec: the status of a queue item,
`Pending | Processing | Paused | Trouble | Completed | Cancelled`. -/
inductive QueueItemStatus
  | Pending | Processing | Paused | Trouble | Completed | Cancelled
  deriving DecidableEq, Repr

/-- Modelled from the spec: a queue item (`id`, `name`, `sourcePath`, `stage`,
`status`); the declaration of `QueueItem` is not among the sources. -/
structure QueueItem where
  Id : Nat
  Name : String
  Path : String
  Stage : PipelineStage
  Status : QueueItemStatus
  deriving DecidableEq, Repr

/-- A Go `error` value, told apart by its dynamic type: the type assertion
`err.(QueueAssignError)` of `tasks.go` succeeds exactly on the first
constructor. `errors.New` builds the second. -/
inductive GoError
  | QueueAssignError (msg : String)
  | other (msg : String)
  deriving DecidableEq, Repr

/-- The method `Error()` of an error value. -/
def GoError.Error : GoError → String
  | .QueueAssignError msg => msg
  | .other msg => msg

/-- The type assertion `_, ok := err.(QueueAssignError)`. -/
def GoError.isQueueAssignError : GoError → Bool
  | .QueueAssignError _ => true
  | .other _ => false

/-! ## processor/worker.go -/

/-- The constants `Idle`, `Working`, `Finished`. -/
inductive WorkerStatus
  | Idle | Working | Finished
  deriving DecidableEq, Repr

/-- The struct `Worker`. The `task` field is the function being embedded and the
`wakeupChan` field is part of the world the worker runs in, so neither is a
field here. -/
structure Worker where
  label : String
  currentStatus : WorkerStatus
  pipelineStage : PipelineStage
  deriving DecidableEq, Repr

/-- What the receive `_, isAlive = <-worker.wakeupChan` yields when it returns:
a value (`isAlive` true) or the closed indication (`isAlive` false). -/
inductive Recv
  | value (v : Int)
  | closed
  deriving DecidableEq, Repr

/-- The function `NewWorker`: a worker starts `Idle`. -/
def NewWorker (label : String) (pipelineStage : PipelineStage) : Worker :=
  { label := label, currentStatus := .Idle, pipelineStage := pipelineStage }

/-- The method `Worker.sleep`. The argument `rx` is the outcome of the receive on
the wake channel: `none` when the receive never returns (the worker stays
blocked), otherwise what it yields. The result is the worker afterwards and the
returned `isAlive`, `none` when `sleep` never returns. -/
def Worker.sleep (worker : Worker) (rx : Option Recv) : Worker × Option Bool :=
  -- worker.currentStatus = Idle
  let worker := { worker with currentStatus := .Idle }
  match rx with
  | none => (worker, none)
  | some (.value _) =>
    -- isAlive: worker.currentStatus = Working
    ({ worker with currentStatus := .Working }, some true)
  | some .closed =>
    -- not isAlive: worker.currentStatus = Finished
    ({ worker with currentStatus := .Finished }, some false)

/-! ## api/router.go -/

/-- The scan of `strings.Replace` for a non-empty `old`: `skip` counts the
characters of a matched occurrence that remain to be dropped. Occurrences are
found left to right and do not overlap. -/
def replaceScan (old new : List Char) : Nat → List Char → List Char
  | _, [] => []
  | skip + 1, _ :: cs => replaceScan old new skip cs
  | 0, c :: cs =>
    if old.isPrefixOf (c :: cs) then new ++ replaceScan old new (old.length - 1) cs
    else c :: replaceScan old new 0 cs

/-- Go's `strings.ReplaceAll(s, old, new)`: every non-overlapping occurrence of
`old`, found left to right, is replaced by `new`; an empty `old` matches before
every character and at the end. -/
def ReplaceAll (s old new : String) : String :=
  if old.data = [] then
    String.mk (new.data ++ s.data.flatMap (fun c => c :: new.data))
  else
    String.mk (replaceScan old.data new.data 0 s.data)

/-- The struct `routerListener`, without its handler function. -/
structure routerListener where
  path : String
  methods : List String
  deriving DecidableEq, Repr

/-- What `router.Mux.HandleFunc(routePath, handler)` followed by
`muxRoute.Methods(route.methods...)` registers: the path, and the methods when
there are any. -/
structure MuxRoute where
  path : String
  methods : Option (List String)
  deriving DecidableEq, Repr

/-- The path expression of `buildRoutes`:
`strings.ReplaceAll(fmt.Sprintf("%s/%s", opts.ApiRoot, route.path), "//", "/")`. -/
def routePath (ApiRoot : String) (path : String) : String :=
  ReplaceAll (ApiRoot ++ "/" ++ path) "//" "/"

/-- The method `Router.buildRoutes`: the routes registered on the mux, in
order. -/
def buildRoutes (ApiRoot : String) (routes : List routerListener) : List MuxRoute :=
  routes.map fun route =>
    { path := routePath ApiRoot route.path,
      methods := if route.methods.length > 0 then some route.methods else none }

/-- Whether a string holds two consecutive `/` characters. -/
def hasDoubleSlash : List Char → Bool
  | '/' :: '/' :: _ => true
  | _ :: cs => hasDoubleSlash cs
  | [] => false

/-! ## ws/socketMessage.go -/

/-- The constants of `socketMessageType`. -/
inductive socketMessageType
  | Update | Command | Response | ErrorResponse | Welcome
  deriving DecidableEq, Repr

/-- A value of type `interface{}` held in a message body: a string, a number, a
boolean, or a `map[string]interface{}`. Go holds a map by reference, so the
value is the address of the map in the heap, `none` for the nil map. -/
inductive Value
  | str (s : String)
  | num (n : Int)
  | flag (b : Bool)
  | map (ref : Option Nat)
  deriving DecidableEq, Repr

/-- A variable of type `map[string]interface{}`: the address of a map, `none` for
the nil map. Two variables with the same address are the same map. -/
abbrev MapRef := Option Nat

/-- The maps of the program by address: the entries of each, one per key. -/
abbrev Heap := Nat → List (String × Value)

/-- The map read `m[key]` on the entries of a map. -/
def mapGet : List (String × Value) → String → Option Value
  | [], _ => none
  | (k, v) :: rest, key => if k = key then some v else mapGet rest key

/-- The map write `m[key] = v` on the entries of a map: the entry of an existing
key is overwritten, a new key gets a new entry. -/
def mapSet : List (String × Value) → String → Value → List (String × Value)
  | [], key, v => [(key, v)]
  | (k, x) :: rest, key, v =>
    if k = key then (k, v) :: rest else (k, x) :: mapSet rest key v

/-- The map write `m[key] = v` through the address of `m`: the map at that address
changes, for every variable that holds it. -/
def Heap.write (heap : Heap) (address : Nat) (key : String) (v : Value) : Heap :=
  fun other => if other = address then mapSet (heap other) key v else heap other

/-- The struct `SocketMessage`; a `*uuid.UUID` is an optional identifier, the field
`Type` is spelt `Type_`, and `Body` holds its map by reference. -/
structure SocketMessage where
  Title : String
  Body : MapRef
  Id : Int
  Type_ : socketMessageType
  Origin : Option String
  Target : Option String
  deriving DecidableEq, Repr

/-- The method `SocketMessage.FormReply`, on the heap of maps: the heap afterwards
and the new message. The write `replyBody["command"] = message.Body` goes into
the caller's own map and stores the reference of the body of the message; the
reply holds the same map as the caller. Fields the struct literal leaves out
(`Origin`) take their zero value, nil. -/
def SocketMessage.FormReply (heap : Heap) (message : SocketMessage) (replyTitle : String)
    (replyBody : MapRef) (replyType : socketMessageType) : Heap × SocketMessage :=
  -- if replyBody != nil then replyBody["command"] = message.Body
  let heap : Heap :=
    match replyBody with
    | none => heap
    | some address => heap.write address "command" (Value.map message.Body)
  (heap,
    { Title := replyTitle,
      Body := replyBody,
      Type_ := replyType,
      Id := message.Id,
      Target := message.Origin,
      Origin := none })

/-! ## api/httpGateway.go -/

/-- How a handler ends: it wrote a JSON message with a status code
(`JsonMessage(w, msg, status)`), or it stopped on a runtime fault. -/
inductive HandlerOutcome
  | responded (message : String) (status : Nat)
  | runtimePanic (reason : String)
  deriving DecidableEq, Repr

/-- The call `err.Error()` on an `error` variable: on the nil error it is a nil
dereference, which faults. -/
def callError : Option GoError → Except String String
  | some e => .ok e.Error
  | none => .error "runtime error: invalid memory address or nil pointer dereference"

/-- The method `HttpGateway.HttpQueueUpdate`. `Atoi` stands for `strconv.Atoi`,
`FindById` and `PromoteItem` for the queue methods of the same names (their
code is not among the sources); `stringId` is `mux.Vars(r)["id"]`. The variable
`err` is the one `strconv.Atoi` assigned, and it is the only `err` in scope in
the promote branch. -/
def HttpQueueUpdate (Atoi : String → Int × Option GoError)
    (FindById : Int → Option QueueItem) (PromoteItem : QueueItem → Option GoError)
    (stringId : String) : HandlerOutcome :=
  match Atoi stringId with
  | (id, err) =>
    if err.isSome then
      match callError err with
      | .ok text =>
        .responded ("QueueItem ID '" ++ stringId ++ "' not acceptable - " ++ text) 406
      | .error reason => .runtimePanic reason
    else
      match FindById id with
      | none => .responded ("QueueItem with ID " ++ toString id ++ " not found") 404
      | some queueItem =>
        if (PromoteItem queueItem).isSome then
          match callError err with
          | .ok text =>
            .responded ("Failed to promote QueueItem #" ++ stringId ++ ": " ++ text) 500
          | .error reason => .runtimePanic reason
        else
          .responded "Queue item promoted successfully" 200

/-- A decimal digit's value. -/
def digitValue (c : Char) : Option Nat :=
  if '0' ≤ c ∧ c ≤ '9' then some (c.toNat - '0'.toNat) else none

/-- The digits of a base-10 numeral, most significant first, as a number. -/
def parseDigits : List Char → Option Nat
  | [] => none
  | cs => cs.foldlM (fun acc c => (digitValue c).map (fun d => acc * 10 + d)) 0

/-- Go's `strconv.Atoi` on a 64-bit platform, with unquoted error texts: an
optional sign and decimal digits, within the range of `int`. -/
def strconvAtoi (s : String) : Int × Option GoError :=
  let syntaxErr := GoError.other ("strconv.Atoi: parsing " ++ s ++ ": invalid syntax")
  let rangeErr := GoError.other ("strconv.Atoi: parsing " ++ s ++ ": value out of range")
  match s.data with
  | '-' :: ds =>
    match parseDigits ds with
    | none => (0, some syntaxErr)
    | some n => if n ≤ 2 ^ 63 then (-(n : Int), none) else (-(2 ^ 63 : Int), some rangeErr)
  | '+' :: ds =>
    match parseDigits ds with
    | none => (0, some syntaxErr)
    | some n => if n < 2 ^ 63 then ((n : Int), none) else ((2 ^ 63 - 1 : Int), some rangeErr)
  | ds =>
    match parseDigits ds with
    | none => (0, some syntaxErr)
    | some n => if n < 2 ^ 63 then ((n : Int), none) else ((2 ^ 63 - 1 : Int), some rangeErr)

/-! ## processor/tasks.go -/

/-- What one call of `p.PollInputSource()` does, as `pollingWorkerTask` sees it:
it panics, or it returns `(notify, err)`. The `PollInputSource` of `processor.go`
returns an error only, so the task takes the call from its world. -/
inductive PollResult
  | panicked (msg : String)
  | returned (notify : Int) (err : Option GoError)
  deriving DecidableEq, Repr

/-- The collaborators of a worker task, over an abstract state `σ` of everything
outside the worker (the queue, the wake channel, the other workers). Every
operation may change that state, so successive calls may answer differently.
The code of the queue, of the worker pool and of `FormatTitle` is not among the
sources. -/
structure World (σ : Type) where
  /-- The call `p.Queue.Pick(stage, status)`; `none` is the nil item. -/
  Pick : σ → PipelineStage → QueueItemStatus → σ × Option QueueItem
  /-- The call `p.Queue.AssignItem(queueItem)`; `none` is the nil error. -/
  AssignItem : σ → QueueItem → σ × Option GoError
  /-- The call `p.Queue.AdvanceStage(queueItem)`. -/
  AdvanceStage : σ → QueueItem → σ
  /-- The call `p.FormatTitle(name)`. -/
  FormatTitle : σ → String → String
  /-- The call `p.WorkerPool.NotifyWorkers(stage)`. -/
  NotifyWorkers : σ → PipelineStage → σ
  /-- The call `p.PollInputSource()`. -/
  PollInputSource : σ → σ × PollResult
  /-- The receive `<-worker.wakeupChan`; `none` when it never returns. -/
  recv : σ → σ × Option Recv

/-- The calls a worker task makes, in the order it makes them. -/
inductive Event
  | pick (stage : PipelineStage) (status : QueueItemStatus) (found : Option QueueItem)
  | assign (item : QueueItem) (err : Option GoError)
  | advance (item : QueueItem)
  | notify (stage : PipelineStage)
  | poll (r : PollResult)
  | sleep (rx : Option Recv)
  deriving DecidableEq, Repr

/-- How a run of a task ends: the task returned an error value (`none` is nil),
it panicked, it is blocked in `sleep` for ever, or the fuel of the model ran
out while the task was still running. -/
inductive TaskResult
  | returned (err : Option GoError)
  | panicked (msg : String)
  | blocked
  | outOfFuel
  deriving DecidableEq, Repr

/-- A run of a task: how it ended, the calls it made, and the world and the
worker at the end. -/
structure Run (σ : Type) where
  result : TaskResult
  trace : List Event
  world : σ
  worker : Worker

/-- The run `r` preceded by the calls `evs`. -/
def Run.after {σ : Type} (evs : List Event) (r : Run σ) : Run σ :=
  { r with trace := evs ++ r.trace }

/-- Where `titleWorkerTask` stands at the start of a step: at the top of the
outer `for`, or at the top of the loop labelled `workLoop`. -/
inductive Loc
  | taskLoop | workLoop
  deriving DecidableEq, Repr

/-- The method `titleWorkerTask`, from a given place in its two loops. One unit of
fuel runs the outer loop's head, or one pass of `workLoop` (with the `sleep`
that follows a `break`). The item of the source is a pointer, so the item passed
to `AdvanceStage` carries the new name. -/
def titleWorkerTaskAt {σ : Type} (W : World σ) : Nat → Loc → σ → Worker → Run σ
  | 0, _, s, w => ⟨.outOfFuel, [], s, w⟩
  | n + 1, .taskLoop, s, w =>
    -- w.currentStatus = Working
    titleWorkerTaskAt W n .workLoop s { w with currentStatus := .Working }
  | n + 1, .workLoop, s, w =>
    -- queueItem := p.Queue.Pick(w.pipelineStage, Pending)
    match W.Pick s w.pipelineStage .Pending with
    | (s1, none) =>
      -- break workLoop; isAlive := w.sleep()
      match W.recv s1 with
      | (s2, rx) =>
        match w.sleep rx with
        | (w1, some true) =>
          (titleWorkerTaskAt W n .taskLoop s2 w1).after
            [.pick w.pipelineStage .Pending none, .sleep rx]
        | (w1, some false) =>
          -- return nil
          ⟨.returned none, [.pick w.pipelineStage .Pending none, .sleep rx], s2, w1⟩
        | (w1, none) =>
          ⟨.blocked, [.pick w.pipelineStage .Pending none, .sleep rx], s2, w1⟩
    | (s1, some queueItem) =>
      -- err := p.Queue.AssignItem(queueItem)
      match W.AssignItem s1 queueItem with
      | (s2, some err) =>
        if err.isQueueAssignError then
          -- continue workLoop
          (titleWorkerTaskAt W n .workLoop s2 w).after
            [.pick w.pipelineStage .Pending (some queueItem), .assign queueItem (some err)]
        else
          -- return err
          ⟨.returned (some err),
            [.pick w.pipelineStage .Pending (some queueItem), .assign queueItem (some err)], s2, w⟩
      | (s2, none) =>
        -- queueItem.Name = p.FormatTitle(queueItem.Name)
        let renamed := { queueItem with Name := W.FormatTitle s2 queueItem.Name }
        -- p.Queue.AdvanceStage(queueItem)
        let s3 := W.AdvanceStage s2 renamed
        -- p.WorkerPool.NotifyWorkers(OMDB)
        let s4 := W.NotifyWorkers s3 .OMDB
        (titleWorkerTaskAt W n .workLoop s4 w).after
          [.pick w.pipelineStage .Pending (some queueItem), .assign queueItem none,
            .advance renamed, .notify .OMDB]

/-- The method `titleWorkerTask`, run from its start with the given fuel. -/
def titleWorkerTask {σ : Type} (W : World σ) (fuel : Nat) (s : σ) (w : Worker) : Run σ :=
  titleWorkerTaskAt W fuel .taskLoop s w

/-- The error `pollingWorkerTask` builds when the poll reports one. -/
def pollError (label : String) (err : GoError) : GoError :=
  .other ("cannot PollImportSource inside of worker '" ++ label ++ "' - " ++ err.Error)

/-- The method `pollingWorkerTask`. One unit of fuel runs one pass of its loop: the
`sleep`, and after a wake-up the poll and the notification. -/
def pollingWorkerTask {σ : Type} (W : World σ) : Nat → σ → Worker → Run σ
  | 0, s, w => ⟨.outOfFuel, [], s, w⟩
  | n + 1, s, w =>
    -- isAlive := w.sleep()
    match W.recv s with
    | (s1, rx) =>
      match w.sleep rx with
      | (w1, none) => ⟨.blocked, [.sleep rx], s1, w1⟩
      | (w1, some false) =>
        -- return nil
        ⟨.returned none, [.sleep rx], s1, w1⟩
      | (w1, some true) =>
        -- notify, err := p.PollInputSource()
        match W.PollInputSource s1 with
        | (s2, .panicked msg) => ⟨.panicked msg, [.sleep rx, .poll (.panicked msg)], s2, w1⟩
        | (s2, .returned notify (some err)) =>
          ⟨.returned (some (pollError w1.label err)),
            [.sleep rx, .poll (.returned notify (some err))], s2, w1⟩
        | (s2, .returned notify none) =>
          if notify > 0 then
            -- p.WorkerPool.NotifyWorkers(Title)
            (pollingWorkerTask W n (W.NotifyWorkers s2 .Title) w1).after
              [.sleep rx, .poll (.returned notify none), .notify .Title]
          else
            (pollingWorkerTask W n s2 w1).after [.sleep rx, .poll (.returned notify none)]

/-- The method `Worker.Start`, given the run of the worker's task: the status the
worker is left with, `none` when `Start` never gets past the task (the task
panicked, or is still running or blocked). -/
def Worker.Start {σ : Type} (task : Worker → Run σ) (worker : Worker) : Option WorkerStatus :=
  -- worker.currentStatus = Working
  match (task { worker with currentStatus := .Working }).result with
  | .returned _ =>
    -- worker.currentStatus = Finished
    some .Finished
  | _ => none

/-! ## processor/processor.go -/

/-- An `fs.DirEntry` as `walkFunc` uses it: `IsDir()` and `Info()`, the latter
failing with an error text or giving a file info of type `F`. -/
structure DirEntry (F : Type) where
  IsDir : Bool
  Info : Except String F

/-- One call `filepath.WalkDir` makes to its callback: the path, the entry (nil
when the root could not be read) and the error of the walk, if any. -/
structure WalkCall (F : Type) where
  path : String
  dir : Option (DirEntry F)
  err : Option String

/-- The closure `walkFunc` of `PollInputSource` on one call. `Except.error` is a
panic with its message; `HandleFile` stands for `p.Queue.HandleFile`, whose code
is not among the sources. -/
def walkFunc {Q F : Type} (HandleFile : Q → String → F → Q) (queue : Q)
    (call : WalkCall F) : Except String Q :=
  match call.err with
  | some err =>
    -- log.Panicf("PollInputSource failed - %v\n", err.Error())
    .error ("PollInputSource failed - " ++ err ++ "\n")
  | none =>
    match call.dir with
    | none => .error "runtime error: invalid memory address or nil pointer dereference"
    | some dir =>
      if !dir.IsDir then
        match dir.Info with
        | .error err =>
          -- log.Panicf("Failed to get FileInfo for path %v - %v\n", path, err.Error())
          .error ("Failed to get FileInfo for path " ++ call.path ++ " - " ++ err ++ "\n")
        | .ok v =>
          -- p.Queue.HandleFile(path, v)
          .ok (HandleFile queue call.path v)
      else
        .ok queue

/-- How `PollInputSource` ends: it returns an error value, always nil, or a panic
of `walkFunc` leaves it; either way with the queue as it stands then. -/
inductive PollOutcome (Q : Type)
  | returned (queue : Q) (err : Option GoError)
  | panicked (msg : String) (queue : Q)

/-- The walk `filepath.WalkDir(root, walkFunc)` over the calls it makes, in order:
`walkFunc` only ever returns nil, so the walk skips nothing, and only a panic
ends it early. -/
def walkDir {Q F : Type} (HandleFile : Q → String → F → Q) :
    Q → List (WalkCall F) → PollOutcome Q
  | queue, [] => .returned queue none
  | queue, call :: rest =>
    match walkFunc HandleFile queue call with
    | .error msg => .panicked msg queue
    | .ok queue1 => walkDir HandleFile queue1 rest

/-- The method `Processor.PollInputSource` of `processor.go`: the walk of the
input directory, given as the calls `filepath.WalkDir` makes; then `return nil`. -/
def PollInputSource {Q F : Type} (HandleFile : Q → String → F → Q) (queue : Q)
    (calls : List (WalkCall F)) : PollOutcome Q :=
  walkDir HandleFile queue calls

/-- Whether a call to `walkFunc` carries a walk error, or is a non-directory
entry whose file info cannot be read. -/
def WalkCall.fails {F : Type} (call : WalkCall F) : Bool :=
  match call.err, call.dir with
  | some _, _ => true
  | none, some dir => !dir.IsDir && (match dir.Info with | .error _ => true | .ok _ => false)
  | none, none => false

/-! ## Sample worlds and inputs -/

/-- A scripted world: a list of items `Pick` hands out in turn, the answers of
`AssignItem` in turn, the results of the polls in turn and what the receives on
the wake channel yield in turn (a closed channel once the script is used up). -/
structure Script where
  picks : List (Option QueueItem)
  assigns : List (Option GoError)
  polls : List PollResult
  wakes : List (Option Recv)
  advanced : List QueueItem
  notified : List PipelineStage

/-- The world that follows a `Script`. -/
def scripted : World Script where
  Pick s _ _ := ({ s with picks := s.picks.tail }, s.picks.head?.join)
  AssignItem s _ := ({ s with assigns := s.assigns.tail }, s.assigns.head?.join)
  AdvanceStage s item := { s with advanced := s.advanced ++ [item] }
  FormatTitle _ name := String.mk (name.data.filter fun c => c != ' ')
  NotifyWorkers s stage := { s with notified := s.notified ++ [stage] }
  PollInputSource s := ({ s with polls := s.polls.tail }, s.polls.headD (.returned 0 none))
  recv s := ({ s with wakes := s.wakes.tail }, s.wakes.headD (some .closed))

/-- A sample item. -/
def sampleItem : QueueItem :=
  { Id := 1, Name := " a.mp4 ", Path := "/in/a.mp4", Stage := .Title, Status := .Pending }

/-- A sample heap: the map at address 0 is `{"page": 2}`, every other map is
empty. -/
def sampleHeap : Heap :=
  fun address => if address = 0 then [("page", .num 2)] else []

/-- A sample message with an origin, whose body is the map at address 0. -/
def sampleMessage : SocketMessage :=
  { Title := "QUEUE_INDEX", Body := some 0, Id := 7, Type_ := .Command,
    Origin := some "client-1", Target := none }

/-- Sample script: the first assignment loses a race, the second fails for another
reason. -/
def raceScript : Script :=
  { picks := [some sampleItem, some sampleItem], assigns := [some (.QueueAssignError "taken"),
      some (.other "queue is closed")], polls := [], wakes := [], advanced := [], notified := [] }

/-- Sample script: one item is assigned and advanced, then the queue is empty and
the wake channel is closed. -/
def workScript : Script :=
  { picks := [some sampleItem, none], assigns := [none], polls := [], wakes := [some .closed],
    advanced := [], notified := [] }

/-- Sample script for the polling task: one wake-up whose poll ingests one item,
then the wake channel is closed. -/
def pollScript : Script :=
  { picks := [], assigns := [], polls := [.returned 1 none], wakes := [some (.value 1), some .closed],
    advanced := [], notified := [] }

/-- Sample script for the polling task: one wake-up whose poll panics. -/
def panicScript : Script :=
  { picks := [], assigns := [], polls := [.panicked "PollInputSource failed - permission denied\n"],
    wakes := [some (.value 1), some (.value 1)], advanced := [], notified := [] }

/-- Sample walk: the input directory, a file, an entry the walk could not read,
and another file. The file info is a size. -/
def sampleWalk : List (WalkCall Nat) :=
  [{ path := "/in", dir := some { IsDir := true, Info := .ok 0 }, err := none },
   { path := "/in/a.mp4", dir := some { IsDir := false, Info := .ok 10 }, err := none },
   { path := "/in/locked", dir := none, err := some "permission denied" },
   { path := "/in/b.mp4", dir := some { IsDir := false, Info := .ok 5 }, err := none }]

/-- Sample `HandleFile`: the queue is the list of paths handed over. -/
def samplePaths (queue : List String) (path : String) (_ : Nat) : List String :=
  queue ++ [path]

/-! ## The shape of a run -/

/-- The pairs of calls that stand next to each other in a run of `titleWorkerTask`
by a worker of stage `st`. -/
inductive TitleStep (st : PipelineStage) : Event → Event → Prop
  | emptyPick (rx : Option Recv) : TitleStep st (.pick st .Pending none) (.sleep rx)
  | pickAssign (item : QueueItem) (err : Option GoError) :
    TitleStep st (.pick st .Pending (some item)) (.assign item err)
  | assignAdvance (item : QueueItem) (name : String) :
    TitleStep st (.assign item none) (.advance { item with Name := name })
  | raceRepick (item : QueueItem) (msg : String) (found : Option QueueItem) :
    TitleStep st (.assign item (some (.QueueAssignError msg))) (.pick st .Pending found)
  | advanceNotify (item : QueueItem) : TitleStep st (.advance item) (.notify .OMDB)
  | notifyPick (found : Option QueueItem) : TitleStep st (.notify .OMDB) (.pick st .Pending found)
  | wakePick (v : Int) (found : Option QueueItem) :
    TitleStep st (.sleep (some (.value v))) (.pick st .Pending found)

/-- How a run of `titleWorkerTask` ends, by the last call it made. -/
def TitleEnd : Option Event → TaskResult → Prop
  | none, r => r = .outOfFuel
  | some (.sleep none), r => r = .blocked
  | some (.sleep (some .closed)), r => r = .returned none
  | some (.sleep (some (.value _))), r => r = .outOfFuel
  | some (.assign _ (some (.QueueAssignError _))), r => r = .outOfFuel
  | some (.assign _ (some (.other msg))), r => r = .returned (some (.other msg))
  | some (.notify _), r => r = .outOfFuel
  | some _, _ => False

/-- The pairs of calls that stand next to each other in a run of
`pollingWorkerTask`. -/
inductive PollStep : Event → Event → Prop
  | wakePoll (v : Int) (r : PollResult) : PollStep (.sleep (some (.value v))) (.poll r)
  | ingestNotify (n : Int) (h : n > 0) :
    PollStep (.poll (.returned n none)) (.notify .Title)
  | idleSleep (n : Int) (h : ¬ n > 0) (rx : Option Recv) :
    PollStep (.poll (.returned n none)) (.sleep rx)
  | notifySleep (rx : Option Recv) : PollStep (.notify .Title) (.sleep rx)

/-- How a run of `pollingWorkerTask` by the worker labelled `label` ends, by the
last call it made. -/
def PollEnd (label : String) : Option Event → TaskResult → Prop
  | none, r => r = .outOfFuel
  | some (.sleep none), r => r = .blocked
  | some (.sleep (some .closed)), r => r = .returned none
  | some (.poll (.panicked msg)), r => r = .panicked msg
  | some (.poll (.returned _ (some err))), r => r = .returned (some (pollError label err))
  | some (.poll (.returned n none)), r => ¬ n > 0 ∧ r = .outOfFuel
  | some (.notify _), r => r = .outOfFuel
  | some _, _ => False

/-! # Theorems -/

/-! ## `Worker.sleep` -/

/-- The three ways `sleep` can go, by what the receive on the wake channel does. -/
theorem sleep_cases (w : Worker) (rx : Option Recv) :
    (rx = none ∧ w.sleep rx = ({ w with currentStatus := .Idle }, none)) ∨
    (∃ v, rx = some (.value v) ∧ w.sleep rx = ({ w with currentStatus := .Working }, some true)) ∨
    (rx = some .closed ∧ w.sleep rx = ({ w with currentStatus := .Finished }, some false)) := by
  rcases rx with _ | _ | _ <;> simp [Worker.sleep]

/-- C3: `sleep` sets the status to `Idle` and waits on the wake channel: while the
receive has not returned the worker is `Idle` and `sleep` has not returned; on a
received value `sleep` returns true and the worker is `Working`; on the closed
indication it returns false and the worker is `Finished`. So `sleep` returns
false exactly when the channel was closed, and exactly then the worker ends
`Finished`; label and stage are untouched. -/
theorem sleep_idle_then_working_or_finished (worker : Worker) :
    ((worker.sleep none).1.currentStatus = .Idle ∧ (worker.sleep none).2 = none) ∧
    (∀ v, (worker.sleep (some (.value v))).2 = some true ∧
      (worker.sleep (some (.value v))).1.currentStatus = .Working) ∧
    ((worker.sleep (some .closed)).2 = some false ∧
      (worker.sleep (some .closed)).1.currentStatus = .Finished) ∧
    (∀ rx, (worker.sleep rx).2 = some false ↔ rx = some .closed) ∧
    (∀ rx, (worker.sleep rx).1.currentStatus = .Finished ↔ rx = some .closed) ∧
    (∀ rx, (worker.sleep rx).1.label = worker.label ∧
      (worker.sleep rx).1.pipelineStage = worker.pipelineStage) := by
  refine ⟨⟨rfl, rfl⟩, fun v => ⟨rfl, rfl⟩, ⟨rfl, rfl⟩, ?_, ?_, ?_⟩
  · intro rx
    rcases rx with _ | _ | _ <;> simp [Worker.sleep]
  · intro rx
    rcases rx with _ | _ | _ <;> simp [Worker.sleep]
  · intro rx
    rcases rx with _ | _ | _ <;> simp [Worker.sleep]

/-- C3 on a title worker whose wake channel is closed: `sleep` returns false and the
worker ends `Finished`. -/
theorem sleep_idle_then_working_or_finished_witness :
    ((NewWorker "title:0" .Title).sleep (some .closed)).2 = some false ∧
    ((NewWorker "title:0" .Title).sleep (some .closed)).1.currentStatus = .Finished :=
  (sleep_idle_then_working_or_finished (NewWorker "title:0" .Title)).2.2.1

/-! ## `buildRoutes` -/

/-- C7: with `ApiRoot = "/api/"` and the route path `"/v0/queue"` the path that
`buildRoutes` registers is `"/api//v0/queue"`, which holds two consecutive
slashes: the single pass of `ReplaceAll` turns the run `///` into `//`. -/
theorem buildRoutes_keeps_double_slash :
    buildRoutes "/api/" [{ path := "/v0/queue", methods := ["GET"] }]
      = [{ path := "/api//v0/queue", methods := some ["GET"] }] ∧
    hasDoubleSlash (routePath "/api/" "/v0/queue").data = true := by
  decide

/-! ## `FormReply` -/

/-- The entry written by `mapSet` is the one read back. -/
theorem mapGet_mapSet_same (entries : List (String × Value)) (key : String) (v : Value) :
    mapGet (mapSet entries key v) key = some v := by
  induction entries with
  | nil => simp [mapSet, mapGet]
  | cons e rest ih =>
    obtain ⟨k, x⟩ := e
    by_cases h : k = key
    · simp [mapSet, mapGet, h]
    · simp [mapSet, mapGet, h, ih]

/-- A write by `mapSet` leaves the other keys as they were. -/
theorem mapGet_mapSet_other (entries : List (String × Value)) (key other : String)
    (v : Value) (h : other ≠ key) :
    mapGet (mapSet entries key v) other = mapGet entries other := by
  induction entries with
  | nil => simp [mapSet, mapGet, Ne.symm h]
  | cons e rest ih =>
    obtain ⟨k, x⟩ := e
    by_cases hk : k = key
    · subst hk
      simp [mapSet, mapGet, Ne.symm h]
    · by_cases ho : k = other
      · subst ho
        simp [mapSet, mapGet, hk]
      · simp [mapSet, mapGet, hk, ho, ih]

/-- C8: for a message that has an origin, the reply of `FormReply` has no origin
(the origin of the message is put in `Target`), so its origin is not that of
the message; and a non-nil reply body comes back with the key `"command"` holding
the body of the message, written into the caller's own map. Id, title and type
are as the claim says, and the other keys and the other maps are untouched. -/
theorem FormReply_drops_origin (heap : Heap) (message : SocketMessage)
    (replyTitle : String) (replyBody : MapRef) (replyType : socketMessageType)
    (origin : String) (horigin : message.Origin = some origin) :
    (message.FormReply heap replyTitle replyBody replyType).2.Origin = none ∧
    (message.FormReply heap replyTitle replyBody replyType).2.Origin ≠ message.Origin ∧
    (message.FormReply heap replyTitle replyBody replyType).2.Target = message.Origin ∧
    (message.FormReply heap replyTitle replyBody replyType).2.Id = message.Id ∧
    (message.FormReply heap replyTitle replyBody replyType).2.Title = replyTitle ∧
    (message.FormReply heap replyTitle replyBody replyType).2.Type_ = replyType ∧
    (message.FormReply heap replyTitle replyBody replyType).2.Body = replyBody ∧
    (∀ address, replyBody = some address →
      mapGet ((message.FormReply heap replyTitle replyBody replyType).1 address) "command"
        = some (Value.map message.Body) ∧
      (∀ key, key ≠ "command" →
        mapGet ((message.FormReply heap replyTitle replyBody replyType).1 address) key
          = mapGet (heap address) key) ∧
      ∀ other, other ≠ address →
        (message.FormReply heap replyTitle replyBody replyType).1 other = heap other) ∧
    (replyBody = none → (message.FormReply heap replyTitle replyBody replyType).1 = heap) := by
  refine ⟨rfl, ?_, rfl, rfl, rfl, rfl, rfl, ?_, ?_⟩
  · rw [horigin]
    simp [SocketMessage.FormReply]
  · intro address h
    subst h
    refine ⟨?_, ?_, ?_⟩
    · simp [SocketMessage.FormReply, Heap.write, mapGet_mapSet_same]
    · intro key hkey
      simp [SocketMessage.FormReply, Heap.write, mapGet_mapSet_other _ _ _ _ hkey]
    · intro other hother
      simp [SocketMessage.FormReply, Heap.write, hother]
  · intro h
    subst h
    rfl

/-- C8 on the sample message and an empty, non-nil reply body at address 1: the
reply has no origin, and the caller's map now holds the key `"command"`. -/
theorem FormReply_drops_origin_witness :
    (sampleMessage.FormReply sampleHeap "REPLY" (some 1) .Response).2.Origin = none ∧
    (sampleMessage.FormReply sampleHeap "REPLY" (some 1) .Response).2.Origin
      ≠ sampleMessage.Origin ∧
    sampleHeap 1 = [] ∧
    (sampleMessage.FormReply sampleHeap "REPLY" (some 1) .Response).1 1
      = [("command", .map (some 0))] :=
  ⟨(FormReply_drops_origin sampleHeap sampleMessage "REPLY" (some 1) .Response "client-1"
      rfl).1,
    (FormReply_drops_origin sampleHeap sampleMessage "REPLY" (some 1) .Response "client-1"
      rfl).2.1,
    by decide, by decide⟩

/-- A reply formed with the body of the message itself as reply body: the map of the
message changes, and it now holds a reference to itself. -/
theorem FormReply_aliased_body :
    (sampleMessage.FormReply sampleHeap "REPLY" sampleMessage.Body .Response).1 0
      = [("page", .num 2), ("command", .map (some 0))] := by
  decide

/-! ## `HttpQueueUpdate` -/

/-- C9: whenever the id parses, names an item, and `PromoteItem` returns an error,
`HttpQueueUpdate` stops on a nil dereference: the `err` it asks for the text of
is the nil error of `strconv.Atoi`. No message is written, so there is no
"Failed to promote QueueItem" response with status 500. -/
theorem HttpQueueUpdate_promote_error_faults (Atoi : String → Int × Option GoError)
    (FindById : Int → Option QueueItem) (PromoteItem : QueueItem → Option GoError)
    (stringId : String) (id : Int) (queueItem : QueueItem) (failure : GoError)
    (hparse : Atoi stringId = (id, none)) (hfind : FindById id = some queueItem)
    (hpromote : PromoteItem queueItem = some failure) :
    HttpQueueUpdate Atoi FindById PromoteItem stringId
      = .runtimePanic "runtime error: invalid memory address or nil pointer dereference" ∧
    ∀ message status,
      HttpQueueUpdate Atoi FindById PromoteItem stringId ≠ .responded message status := by
  have h : HttpQueueUpdate Atoi FindById PromoteItem stringId
      = .runtimePanic "runtime error: invalid memory address or nil pointer dereference" := by
    simp [HttpQueueUpdate, hparse, hfind, hpromote, callError]
  refine ⟨h, ?_⟩
  intro message status
  rw [h]
  simp

/-- C9 at a request for item 1, which exists and is being processed, so that its
promotion is refused. -/
theorem HttpQueueUpdate_promote_error_faults_witness :
    HttpQueueUpdate strconvAtoi
        (fun id => if id = 1 then some { sampleItem with Status := .Processing } else none)
        (fun item => if item.Status = .Pending then none else some (.other "item is not pending"))
        "1"
      = .runtimePanic "runtime error: invalid memory address or nil pointer dereference" ∧
    ∀ message status,
      HttpQueueUpdate strconvAtoi
        (fun id => if id = 1 then some { sampleItem with Status := .Processing } else none)
        (fun item => if item.Status = .Pending then none else some (.other "item is not pending"))
        "1" ≠ .responded message status :=
  HttpQueueUpdate_promote_error_faults strconvAtoi _ _ "1" 1
    { sampleItem with Status := .Processing } (.other "item is not pending")
    (by decide) (by decide) (by decide)

/-! ## Runs of `titleWorkerTask` -/

/-- In a list whose neighbours are related by `R`, so are any two elements that
stand next to each other. -/
theorem chain_next {α : Type} {R : α → α → Prop} {l : List α} (h : List.Chain' R l)
    {pre : List α} {a b : α} {rest : List α} (hl : l = pre ++ a :: b :: rest) : R a b := by
  subst hl
  exact (List.chain'_cons.1 (List.chain'_split.1 h).2).1

/-- The first call of a run of `titleWorkerTask`, if it makes one, is a `Pick` for
the worker's stage and the status `Pending`. -/
theorem titleWorkerTaskAt_head {σ : Type} (W : World σ) (n : Nat) :
    ∀ (loc : Loc) (s : σ) (w : Worker), ∀ e ∈ (titleWorkerTaskAt W n loc s w).trace.head?,
      ∃ found, e = .pick w.pipelineStage .Pending found := by
  induction n with
  | zero => intro loc s w e he; simp [titleWorkerTaskAt] at he
  | succ n ih =>
    intro loc s w e he
    cases loc with
    | taskLoop =>
      simp only [titleWorkerTaskAt] at he
      exact ih .workLoop s { w with currentStatus := .Working } e he
    | workLoop =>
      simp only [titleWorkerTaskAt] at he
      rcases hp : W.Pick s w.pipelineStage .Pending with ⟨s1, _ | item⟩
      · rw [hp] at he
        simp only at he
        rcases sleep_cases w (W.recv s1).2 with ⟨_, h⟩ | ⟨v, _, h⟩ | ⟨_, h⟩ <;>
          rw [h] at he <;> simp [Run.after] at he <;> exact ⟨_, he.symm⟩
      · rw [hp] at he
        simp only at he
        rcases ha : W.AssignItem s1 item with ⟨s2, _ | err⟩
        · rw [ha] at he
          simp [Run.after] at he
          exact ⟨_, he.symm⟩
        · rw [ha] at he
          simp only at he
          split at he <;> simp [Run.after] at he <;> exact ⟨_, he.symm⟩

/-- A run that goes on after the calls `evs` ends as its continuation does, or, when
the continuation made no call, as a run out of fuel after the last of `evs`. -/
theorem TitleEnd_after {σ : Type} (evs : List Event) (r : Run σ)
    (hr : TitleEnd r.trace.getLast? r.result)
    (hevs : TitleEnd evs.getLast? .outOfFuel) :
    TitleEnd (r.after evs).trace.getLast? (r.after evs).result := by
  simp only [Run.after, List.getLast?_append]
  cases hl : r.trace.getLast? with
  | none =>
    rw [hl] at hr
    have : r.result = .outOfFuel := hr
    rw [this]
    simpa using hevs
  | some e =>
    rw [hl] at hr
    simpa using hr

/-- The last call of a run of `titleWorkerTask` tells how the run ended. -/
theorem titleWorkerTaskAt_end {σ : Type} (W : World σ) (n : Nat) :
    ∀ (loc : Loc) (s : σ) (w : Worker),
      TitleEnd (titleWorkerTaskAt W n loc s w).trace.getLast?
        (titleWorkerTaskAt W n loc s w).result := by
  induction n with
  | zero => intro loc s w; simp [titleWorkerTaskAt, TitleEnd]
  | succ n ih =>
    intro loc s w
    cases loc with
    | taskLoop =>
      simp only [titleWorkerTaskAt]
      exact ih .workLoop s { w with currentStatus := .Working }
    | workLoop =>
      simp only [titleWorkerTaskAt]
      rcases hp : W.Pick s w.pipelineStage .Pending with ⟨s1, _ | item⟩
      · simp only
        rcases sleep_cases w (W.recv s1).2 with ⟨hrx, h⟩ | ⟨v, hrx, h⟩ | ⟨hrx, h⟩
        · rw [h]
          simp [hrx, TitleEnd]
        · rw [h]
          exact TitleEnd_after _ _ (ih _ _ _) (by simp [hrx, TitleEnd])
        · rw [h]
          simp [hrx, TitleEnd]
      · simp only
        rcases ha : W.AssignItem s1 item with ⟨s2, _ | err⟩
        · exact TitleEnd_after _ _ (ih _ _ _) (by simp [TitleEnd])
        · cases err with
          | QueueAssignError msg =>
            simp only [GoError.isQueueAssignError, if_true]
            exact TitleEnd_after _ _ (ih _ _ _) (by simp [TitleEnd])
          | other msg => simp [GoError.isQueueAssignError, TitleEnd]

/-- Neighbouring calls of a run of `titleWorkerTask` are related by `TitleStep`. -/
theorem titleWorkerTaskAt_chain {σ : Type} (W : World σ) (n : Nat) :
    ∀ (loc : Loc) (s : σ) (w : Worker),
      List.Chain' (TitleStep w.pipelineStage) (titleWorkerTaskAt W n loc s w).trace := by
  induction n with
  | zero => intro loc s w; simp [titleWorkerTaskAt]
  | succ n ih =>
    intro loc s w
    cases loc with
    | taskLoop =>
      simp only [titleWorkerTaskAt]
      exact ih .workLoop s { w with currentStatus := .Working }
    | workLoop =>
      simp only [titleWorkerTaskAt]
      rcases hp : W.Pick s w.pipelineStage .Pending with ⟨s1, _ | item⟩
      · simp only
        rcases sleep_cases w (W.recv s1).2 with ⟨hrx, h⟩ | ⟨v, hrx, h⟩ | ⟨hrx, h⟩
        · rw [h]
          simpa using TitleStep.emptyPick _
        · rw [h]
          simp only [Run.after, List.cons_append, List.nil_append]
          refine List.chain'_cons'.2 ⟨?_, List.chain'_cons'.2 ⟨?_, ?_⟩⟩
          · intro y hy
            simp only [List.head?_cons, Option.mem_def, Option.some.injEq] at hy
            subst hy
            exact .emptyPick _
          · intro y hy
            obtain ⟨found, rfl⟩ := titleWorkerTaskAt_head W n _ _ _ y hy
            rw [hrx]
            exact .wakePick v found
          · exact ih .taskLoop _ { w with currentStatus := .Working }
        · rw [h]
          simpa using TitleStep.emptyPick _
      · simp only
        rcases ha : W.AssignItem s1 item with ⟨s2, _ | err⟩
        · simp only [Run.after, List.cons_append, List.nil_append]
          refine List.chain'_cons'.2 ⟨?_, List.chain'_cons'.2 ⟨?_, List.chain'_cons'.2 ⟨?_,
            List.chain'_cons'.2 ⟨?_, ih _ _ _⟩⟩⟩⟩
          · intro y hy
            simp only [List.head?_cons, Option.mem_def, Option.some.injEq] at hy
            subst hy
            exact .pickAssign _ _
          · intro y hy
            simp only [List.head?_cons, Option.mem_def, Option.some.injEq] at hy
            subst hy
            exact .assignAdvance _ _
          · intro y hy
            simp only [List.head?_cons, Option.mem_def, Option.some.injEq] at hy
            subst hy
            exact .advanceNotify _
          · intro y hy
            obtain ⟨found, rfl⟩ := titleWorkerTaskAt_head W n _ _ _ y hy
            exact .notifyPick found
        · cases err with
          | QueueAssignError msg =>
            simp only [GoError.isQueueAssignError, if_true, Run.after, List.cons_append,
              List.nil_append]
            refine List.chain'_cons'.2 ⟨?_, List.chain'_cons'.2 ⟨?_, ih _ _ _⟩⟩
            · intro y hy
              simp only [List.head?_cons, Option.mem_def, Option.some.injEq] at hy
              subst hy
              exact .pickAssign _ _
            · intro y hy
              obtain ⟨found, rfl⟩ := titleWorkerTaskAt_head W n _ _ _ y hy
              exact .raceRepick _ _ found
          | other msg =>
            simpa [GoError.isQueueAssignError] using TitleStep.pickAssign _ _

/-- A pass of `workLoop` makes at least one call. -/
theorem titleWorkerTaskAt_workLoop_ne_nil {σ : Type} (W : World σ) (n : Nat) (s : σ)
    (w : Worker) :
    ∃ e ext, (titleWorkerTaskAt W (n + 1) .workLoop s w).trace = e :: ext := by
  rw [titleWorkerTaskAt.eq_3]
  rcases hp : W.Pick s w.pipelineStage .Pending with ⟨s1, _ | item⟩
  · simp only
    rcases sleep_cases w (W.recv s1).2 with ⟨_, h⟩ | ⟨v, _, h⟩ | ⟨_, h⟩ <;>
      rw [h] <;> exact ⟨_, _, rfl⟩
  · simp only
    rcases ha : W.AssignItem s1 item with ⟨s2, _ | err⟩
    · exact ⟨_, _, rfl⟩
    · simp only
      split <;> exact ⟨_, _, rfl⟩

/-- A run of `titleWorkerTask` that stopped for lack of fuel goes on, with two more
units of fuel, with at least one more call. -/
theorem titleWorkerTaskAt_more_fuel {σ : Type} (W : World σ) (n : Nat) :
    ∀ (loc : Loc) (s : σ) (w : Worker),
      (titleWorkerTaskAt W n loc s w).result = .outOfFuel →
      ∃ e ext, (titleWorkerTaskAt W (n + 2) loc s w).trace
        = (titleWorkerTaskAt W n loc s w).trace ++ e :: ext := by
  induction n with
  | zero =>
    intro loc s w _
    cases loc with
    | taskLoop =>
      rw [titleWorkerTaskAt.eq_2, titleWorkerTaskAt.eq_1]
      exact titleWorkerTaskAt_workLoop_ne_nil W 0 s _
    | workLoop =>
      rw [titleWorkerTaskAt.eq_1]
      exact titleWorkerTaskAt_workLoop_ne_nil W 1 s _
  | succ n ih =>
    intro loc s w h
    cases loc with
    | taskLoop =>
      rw [titleWorkerTaskAt.eq_2 W s w n] at h ⊢
      rw [show n + 1 + 2 = (n + 2) + 1 from rfl, titleWorkerTaskAt.eq_2 W s w (n + 2)]
      exact ih _ _ _ h
    | workLoop =>
      rw [titleWorkerTaskAt.eq_3 W s w n] at h ⊢
      rw [show n + 1 + 2 = (n + 2) + 1 from rfl, titleWorkerTaskAt.eq_3 W s w (n + 2)]
      rcases hp : W.Pick s w.pipelineStage .Pending with ⟨s1, _ | item⟩
      · rw [hp] at h
        simp only at h ⊢
        rcases sleep_cases w (W.recv s1).2 with ⟨_, hs⟩ | ⟨v, _, hs⟩ | ⟨_, hs⟩
        · rw [hs] at h; simp at h
        · rw [hs] at h ⊢
          simp only [Run.after] at h ⊢
          obtain ⟨e, ext, he⟩ := ih _ _ _ h
          exact ⟨e, ext, by rw [he]; simp⟩
        · rw [hs] at h; simp at h
      · rw [hp] at h
        simp only at h ⊢
        rcases ha : W.AssignItem s1 item with ⟨s2, _ | err⟩
        · rw [ha] at h
          simp only [Run.after] at h ⊢
          obtain ⟨e, ext, he⟩ := ih _ _ _ h
          exact ⟨e, ext, by rw [he]; simp⟩
        · rw [ha] at h
          simp only at h ⊢
          split at h
          · rename_i hq
            simp only [hq, if_true, Run.after] at h ⊢
            obtain ⟨e, ext, he⟩ := ih _ _ _ h
            exact ⟨e, ext, by rw [he]; simp⟩
          · simp at h

/-- A run of `titleWorkerTask` that returned an error did not return a
`QueueAssignError`. -/
theorem TitleEnd_not_race {last : Option Event} {r : TaskResult} (h : TitleEnd last r)
    (msg : String) : r ≠ .returned (some (.QueueAssignError msg)) := by
  intro hr
  subst hr
  unfold TitleEnd at h
  split at h <;> simp_all

/-- C1: `titleWorkerTask` never returns a `QueueAssignError`. After an `AssignItem`
that failed with a `QueueAssignError` the next call of the task is a `Pick` for
its stage (the item is neither processed nor advanced): the `Pick` stands in the
trace, or the trace ends there for lack of fuel and the `Pick` stands there in
the run with two more units of fuel. An `AssignItem` that failed with any other
error is the last call of the task, and the task returns exactly that error. -/
theorem titleWorkerTask_assign_errors {σ : Type} (W : World σ) (fuel : Nat) (s : σ)
    (w : Worker) :
    (∀ msg, (titleWorkerTask W fuel s w).result ≠ .returned (some (.QueueAssignError msg))) ∧
    (∀ pre item msg post,
      (titleWorkerTask W fuel s w).trace
          = pre ++ .assign item (some (.QueueAssignError msg)) :: post →
        (∃ found rest, post = .pick w.pipelineStage .Pending found :: rest) ∨
        (post = [] ∧ (titleWorkerTask W fuel s w).result = .outOfFuel ∧
          ∃ found rest, (titleWorkerTask W (fuel + 2) s w).trace
            = pre ++ .assign item (some (.QueueAssignError msg))
                :: .pick w.pipelineStage .Pending found :: rest)) ∧
    (∀ pre item msg post,
      (titleWorkerTask W fuel s w).trace = pre ++ .assign item (some (.other msg)) :: post →
        post = [] ∧ (titleWorkerTask W fuel s w).result = .returned (some (.other msg))) := by
  have hend := titleWorkerTaskAt_end W fuel .taskLoop s w
  have hchain := titleWorkerTaskAt_chain W fuel .taskLoop s w
  refine ⟨fun msg => TitleEnd_not_race hend msg, ?_, ?_⟩
  · intro pre item msg post htrace
    cases post with
    | nil =>
      right
      have hlast : (titleWorkerTaskAt W fuel .taskLoop s w).trace.getLast?
          = some (.assign item (some (.QueueAssignError msg))) := by
        rw [show (titleWorkerTaskAt W fuel .taskLoop s w).trace = _ from htrace]
        simp
      rw [hlast] at hend
      have hres : (titleWorkerTaskAt W fuel .taskLoop s w).result = .outOfFuel := hend
      refine ⟨rfl, hres, ?_⟩
      obtain ⟨e, ext, hmore⟩ := titleWorkerTaskAt_more_fuel W fuel .taskLoop s w hres
      rw [show (titleWorkerTaskAt W fuel .taskLoop s w).trace = _ from htrace,
        List.append_assoc, List.singleton_append] at hmore
      have hstep := chain_next (titleWorkerTaskAt_chain W (fuel + 2) .taskLoop s w) hmore
      cases hstep with
      | raceRepick _ _ found => exact ⟨found, ext, hmore⟩
    | cons b rest =>
      left
      have hstep := chain_next hchain htrace
      cases hstep with
      | raceRepick _ _ found => exact ⟨found, rest, rfl⟩
  · intro pre item msg post htrace
    cases post with
    | nil =>
      refine ⟨rfl, ?_⟩
      have hlast : (titleWorkerTaskAt W fuel .taskLoop s w).trace.getLast?
          = some (.assign item (some (.other msg))) := by
        rw [show (titleWorkerTaskAt W fuel .taskLoop s w).trace = _ from htrace]
        simp
      rw [hlast] at hend
      exact hend
    | cons b rest =>
      have hstep := chain_next hchain htrace
      cases hstep

/-- C1 on a run where the first assignment loses a race and the second fails
otherwise: the task picks again after the race and returns the second error. -/
theorem titleWorkerTask_assign_errors_witness :
    (titleWorkerTask scripted 5 raceScript (NewWorker "title:0" .Title)).trace
      = [.pick .Title .Pending (some sampleItem),
          .assign sampleItem (some (.QueueAssignError "taken")),
          .pick .Title .Pending (some sampleItem),
          .assign sampleItem (some (.other "queue is closed"))] ∧
    (titleWorkerTask scripted 5 raceScript (NewWorker "title:0" .Title)).result
      = .returned (some (.other "queue is closed")) :=
  ⟨by decide,
    ((titleWorkerTask_assign_errors scripted 5 raceScript (NewWorker "title:0" .Title)).2.2
      [.pick .Title .Pending (some sampleItem),
        .assign sampleItem (some (.QueueAssignError "taken")),
        .pick .Title .Pending (some sampleItem)]
      sampleItem "queue is closed" [] (by decide)).2⟩

/-- C4: in a run of `titleWorkerTask` every `sleep` comes directly after a `Pick`
for the worker's stage and the status `Pending` that found no item, and a
successful `AssignItem` is directly followed by the `AdvanceStage` of the same
item (renamed) and the notification: no `sleep` stands between them. -/
theorem titleWorkerTask_sleeps_only_after_empty_pick {σ : Type} (W : World σ) (fuel : Nat)
    (s : σ) (w : Worker) :
    (∀ pre rx post, (titleWorkerTask W fuel s w).trace = pre ++ .sleep rx :: post →
      ∃ before, pre = before ++ [.pick w.pipelineStage .Pending none]) ∧
    (∀ pre item post, (titleWorkerTask W fuel s w).trace = pre ++ .assign item none :: post →
      ∃ name rest,
        post = .advance { item with Name := name } :: .notify .OMDB :: rest) := by
  have hend := titleWorkerTaskAt_end W fuel .taskLoop s w
  have hchain := titleWorkerTaskAt_chain W fuel .taskLoop s w
  have hhead := titleWorkerTaskAt_head W fuel .taskLoop s w
  constructor
  · intro pre rx post htrace
    change (titleWorkerTaskAt W fuel .taskLoop s w).trace = _ at htrace
    rcases List.eq_nil_or_concat pre with rfl | ⟨before, d, rfl⟩
    · rw [htrace] at hhead
      obtain ⟨found, hf⟩ := hhead (.sleep rx) (by simp)
      cases hf
    · rw [List.concat_eq_append, List.append_assoc] at htrace
      have hstep := chain_next hchain htrace
      cases hstep with
      | emptyPick _ => exact ⟨before, by simp⟩
  · intro pre item post htrace
    change (titleWorkerTaskAt W fuel .taskLoop s w).trace = _ at htrace
    cases post with
    | nil =>
      rw [htrace] at hend
      simp [TitleEnd] at hend
    | cons b post =>
      have hstep := chain_next hchain htrace
      cases hstep with
      | assignAdvance _ name =>
        cases post with
        | nil =>
          rw [htrace] at hend
          simp [TitleEnd] at hend
        | cons c rest =>
          have htrace2 : (titleWorkerTaskAt W fuel .taskLoop s w).trace
              = (pre ++ [.assign item none]) ++ .advance { item with Name := name } :: c :: rest := by
            rw [htrace]; simp
          have hstep2 := chain_next hchain htrace2
          cases hstep2 with
          | advanceNotify _ => exact ⟨name, rest, rfl⟩

/-- C4 on a run that assigns and advances one item and then finds the queue empty
and the wake channel closed. -/
theorem titleWorkerTask_sleeps_only_after_empty_pick_witness :
    (titleWorkerTask scripted 5 workScript (NewWorker "title:0" .Title)).trace
      = [.pick .Title .Pending (some sampleItem), .assign sampleItem none,
          .advance { sampleItem with Name := "a.mp4" }, .notify .OMDB,
          .pick .Title .Pending none, .sleep (some .closed)] ∧
    (∃ before,
      [Event.pick .Title .Pending (some sampleItem), .assign sampleItem none,
          .advance { sampleItem with Name := "a.mp4" }, .notify .OMDB,
          .pick .Title .Pending none]
        = before ++ [.pick (NewWorker "title:0" .Title).pipelineStage .Pending none]) :=
  ⟨by decide,
    (titleWorkerTask_sleeps_only_after_empty_pick scripted 5 workScript
      (NewWorker "title:0" .Title)).1 _ (some .closed) [] (by decide)⟩

/-! ## Runs of `pollingWorkerTask`, and `PollInputSource` -/

/-- The first call of a run of `pollingWorkerTask`, if it makes one, is a
`sleep`. -/
theorem pollingWorkerTask_head {σ : Type} (W : World σ) (n : Nat) (s : σ) (w : Worker) :
    ∀ e ∈ (pollingWorkerTask W n s w).trace.head?, ∃ rx, e = .sleep rx := by
  intro e he
  cases n with
  | zero => simp [pollingWorkerTask] at he
  | succ n =>
    simp only [pollingWorkerTask] at he
    rcases sleep_cases w (W.recv s).2 with ⟨_, h⟩ | ⟨v, _, h⟩ | ⟨_, h⟩
    · rw [h] at he
      simp at he
      exact ⟨_, he.symm⟩
    · rw [h] at he
      simp only at he
      split at he
      · simp at he; exact ⟨_, he.symm⟩
      · simp at he; exact ⟨_, he.symm⟩
      · split at he <;> simp [Run.after] at he <;> exact ⟨_, he.symm⟩
    · rw [h] at he
      simp at he
      exact ⟨_, he.symm⟩

/-- A run of `pollingWorkerTask` that goes on after the calls `evs` ends as its
continuation does, or, when the continuation made no call, as a run out of fuel
after the last of `evs`. -/
theorem PollEnd_after {σ : Type} (label : String) (evs : List Event) (r : Run σ)
    (hr : PollEnd label r.trace.getLast? r.result)
    (hevs : PollEnd label evs.getLast? .outOfFuel) :
    PollEnd label (r.after evs).trace.getLast? (r.after evs).result := by
  simp only [Run.after, List.getLast?_append]
  cases hl : r.trace.getLast? with
  | none =>
    rw [hl] at hr
    have : r.result = .outOfFuel := hr
    rw [this]
    simpa using hevs
  | some e =>
    rw [hl] at hr
    simpa using hr

/-- The last call of a run of `pollingWorkerTask` tells how the run ended. -/
theorem pollingWorkerTask_end {σ : Type} (W : World σ) (n : Nat) :
    ∀ (s : σ) (w : Worker),
      PollEnd w.label (pollingWorkerTask W n s w).trace.getLast?
        (pollingWorkerTask W n s w).result := by
  induction n with
  | zero => intro s w; simp [pollingWorkerTask, PollEnd]
  | succ n ih =>
    intro s w
    simp only [pollingWorkerTask]
    rcases sleep_cases w (W.recv s).2 with ⟨hrx, h⟩ | ⟨v, hrx, h⟩ | ⟨hrx, h⟩
    · rw [h]
      simp [hrx, PollEnd]
    · rw [h]
      simp only
      split
      · simp [PollEnd]
      · simp [PollEnd]
      · split
        · exact PollEnd_after w.label _ _ (ih _ { w with currentStatus := .Working })
            (by simp [PollEnd])
        · rename_i hn
          exact PollEnd_after w.label _ _ (ih _ { w with currentStatus := .Working })
            (by simpa [PollEnd] using hn)
    · rw [h]
      simp [hrx, PollEnd]

/-- Neighbouring calls of a run of `pollingWorkerTask` are related by
`PollStep`. -/
theorem pollingWorkerTask_chain {σ : Type} (W : World σ) (n : Nat) :
    ∀ (s : σ) (w : Worker), List.Chain' PollStep (pollingWorkerTask W n s w).trace := by
  induction n with
  | zero => intro s w; simp [pollingWorkerTask]
  | succ n ih =>
    intro s w
    simp only [pollingWorkerTask]
    rcases sleep_cases w (W.recv s).2 with ⟨hrx, h⟩ | ⟨v, hrx, h⟩ | ⟨hrx, h⟩
    · rw [h]
      simp
    · rw [h]
      simp only
      split
      · simpa [hrx] using PollStep.wakePoll v _
      · simpa [hrx] using PollStep.wakePoll v _
      · split
        · rename_i hn
          simp only [Run.after, List.cons_append, List.nil_append]
          refine List.chain'_cons'.2 ⟨?_, List.chain'_cons'.2 ⟨?_, List.chain'_cons'.2 ⟨?_,
            ih _ _⟩⟩⟩
          · intro y hy
            simp only [List.head?_cons, Option.mem_def, Option.some.injEq] at hy
            subst hy
            rw [hrx]
            exact .wakePoll v _
          · intro y hy
            simp only [List.head?_cons, Option.mem_def, Option.some.injEq] at hy
            subst hy
            exact .ingestNotify _ hn
          · intro y hy
            obtain ⟨rx, rfl⟩ := pollingWorkerTask_head W n _ _ y hy
            exact .notifySleep rx
        · rename_i hn
          simp only [Run.after, List.cons_append, List.nil_append]
          refine List.chain'_cons'.2 ⟨?_, List.chain'_cons'.2 ⟨?_, ih _ _⟩⟩
          · intro y hy
            simp only [List.head?_cons, Option.mem_def, Option.some.injEq] at hy
            subst hy
            rw [hrx]
            exact .wakePoll v _
          · intro y hy
            obtain ⟨rx, rfl⟩ := pollingWorkerTask_head W n _ _ y hy
            exact .idleSleep _ hn rx
    · rw [h]
      simp

/-- The only pool `pollingWorkerTask` notifies is that of the `Title` stage. -/
theorem pollingWorkerTask_notify_mem {σ : Type} (W : World σ) (n : Nat) :
    ∀ (s : σ) (w : Worker) (stage : PipelineStage),
      Event.notify stage ∈ (pollingWorkerTask W n s w).trace → stage = .Title := by
  induction n with
  | zero => intro s w stage h; simp [pollingWorkerTask] at h
  | succ n ih =>
    intro s w stage h
    simp only [pollingWorkerTask] at h
    rcases sleep_cases w (W.recv s).2 with ⟨_, hs⟩ | ⟨v, _, hs⟩ | ⟨_, hs⟩
    · rw [hs] at h
      simp at h
    · rw [hs] at h
      simp only at h
      split at h
      · simp at h
      · simp at h
      · split at h
        · simp only [Run.after, List.cons_append, List.nil_append, List.mem_cons] at h
          rcases h with h | h | h | h
          · cases h
          · cases h
          · cases h; rfl
          · exact ih _ _ _ h
        · simp only [Run.after, List.cons_append, List.nil_append, List.mem_cons] at h
          rcases h with h | h | h
          · cases h
          · cases h
          · exact ih _ _ _ h
    · rw [hs] at h
      simp at h

/-- C5, as stated, fails: on a tick that ingests one item the task notifies the
pool of `Title`, which is the second stage of the pipeline order; the pool of the
first stage, `Import`, is not notified at all. -/
theorem pollingWorkerTask_skips_first_stage :
    (pollingWorkerTask scripted 5 pollScript (NewWorker "poll:0" .Import)).trace
      = [.sleep (some (.value 1)), .poll (.returned 1 none), .notify .Title,
          .sleep (some .closed)] ∧
    Event.notify firstStage ∉
      (pollingWorkerTask scripted 5 pollScript (NewWorker "poll:0" .Import)).trace ∧
    PipelineStage.Title ≠ firstStage ∧ firstStage.order < PipelineStage.Title.order := by
  decide

/-- C5, amended: after every poll that ingested at least one item and reported no
error, the next call of the task is the notification of the pool of the `Title`
stage, and only then does it sleep again; no pool but that of `Title` is ever
notified by the task. -/
theorem pollingWorkerTask_notifies_title {σ : Type} (W : World σ) (fuel : Nat) (s : σ)
    (w : Worker) (pre : List Event) (notify : Int) (post : List Event)
    (htrace : (pollingWorkerTask W fuel s w).trace
      = pre ++ .poll (.returned notify none) :: post)
    (hnotify : notify > 0) :
    (∃ rest, post = .notify .Title :: rest ∧
      (rest = [] ∨ ∃ rx later, rest = .sleep rx :: later)) ∧
    ∀ stage, Event.notify stage ∈ (pollingWorkerTask W fuel s w).trace → stage = .Title := by
  have hend := pollingWorkerTask_end W fuel s w
  have hchain := pollingWorkerTask_chain W fuel s w
  refine ⟨?_, pollingWorkerTask_notify_mem W fuel s w⟩
  cases post with
  | nil =>
    rw [htrace] at hend
    simp [PollEnd, hnotify] at hend
  | cons b rest =>
    have hstep := chain_next hchain htrace
    cases hstep with
    | idleSleep _ h _ => exact absurd hnotify h
    | ingestNotify _ _ =>
      refine ⟨rest, rfl, ?_⟩
      cases rest with
      | nil => exact Or.inl rfl
      | cons c later =>
        right
        have htrace2 : (pollingWorkerTask W fuel s w).trace
            = (pre ++ [.poll (.returned notify none)]) ++ .notify .Title :: c :: later := by
          rw [htrace]; simp
        have hstep2 := chain_next hchain htrace2
        cases hstep2 with
        | notifySleep rx => exact ⟨rx, later, rfl⟩

/-- C5, amended, on a run with one ingesting tick. -/
theorem pollingWorkerTask_notifies_title_witness :
    (∃ rest, [Event.notify .Title, .sleep (some .closed)] = .notify .Title :: rest ∧
      (rest = [] ∨ ∃ rx later, rest = .sleep rx :: later)) ∧
    ∀ stage, Event.notify stage ∈
      (pollingWorkerTask scripted 5 pollScript (NewWorker "poll:0" .Import)).trace →
        stage = .Title :=
  pollingWorkerTask_notifies_title scripted 5 pollScript (NewWorker "poll:0" .Import)
    [.sleep (some (.value 1))] 1 [.notify .Title, .sleep (some .closed)] (by decide) (by decide)

/-- A call that carries a walk error, or whose file info cannot be read, makes
`walkFunc` panic. -/
theorem walkFunc_panics_of_fails {Q F : Type} (HandleFile : Q → String → F → Q) (queue : Q)
    (call : WalkCall F) (h : call.fails = true) :
    ∃ msg, walkFunc HandleFile queue call = .error msg := by
  obtain ⟨path, dir, err⟩ := call
  cases err with
  | some e => exact ⟨_, rfl⟩
  | none =>
    cases dir with
    | none => simp [WalkCall.fails] at h
    | some d =>
      obtain ⟨isDir, info⟩ := d
      cases isDir with
      | true => simp [WalkCall.fails] at h
      | false =>
        cases info with
        | error e => exact ⟨_, rfl⟩
        | ok v => simp [WalkCall.fails] at h

/-- C6, as stated, fails: on a walk that meets an unreadable entry the poll
panics; the file after the failing entry is not handed to the queue. -/
theorem PollInputSource_panics_on_walk_error :
    PollInputSource samplePaths [] sampleWalk
      = .panicked "PollInputSource failed - permission denied\n" ["/in/a.mp4"] := by
  rfl

/-- C6, amended: a poll whose walk meets a walk error, or an entry whose file info
cannot be read, panics, whatever the walk would have met after it, and a poll
that returns reports no error. In
`pollingWorkerTask` a poll that panics is the last call of the task, which ends
with that panic, and a poll that returns an error is the last call of the task,
which returns an error built from it, so that `Worker.Start` leaves the worker
`Finished`: in neither case is there a next tick. -/
theorem walk_error_ends_polling {Q F σ : Type} (HandleFile : Q → String → F → Q)
    (W : World σ) :
    (∀ queue calls, (∃ call ∈ calls, call.fails = true) →
      ∃ msg queue1, PollInputSource HandleFile queue calls = .panicked msg queue1) ∧
    (∀ queue calls queue1 err,
      PollInputSource HandleFile queue calls = .returned queue1 err → err = none) ∧
    (∀ fuel s w pre msg post,
      (pollingWorkerTask W fuel s w).trace = pre ++ .poll (.panicked msg) :: post →
        post = [] ∧ (pollingWorkerTask W fuel s w).result = .panicked msg) ∧
    (∀ fuel s w pre notify err post,
      (pollingWorkerTask W fuel s { w with currentStatus := .Working }).trace
          = pre ++ .poll (.returned notify (some err)) :: post →
        post = [] ∧
        (pollingWorkerTask W fuel s { w with currentStatus := .Working }).result
          = .returned (some (pollError w.label err)) ∧
        Worker.Start (pollingWorkerTask W fuel s) w = some .Finished) ∧
    (∀ queue pre call post, call.fails = true →
      PollInputSource HandleFile queue (pre ++ call :: post)
        = PollInputSource HandleFile queue (pre ++ [call])) := by
  refine ⟨?_, ?_, ?_, ?_, ?_⟩
  · intro queue calls
    induction calls generalizing queue with
    | nil => rintro ⟨call, hmem, _⟩; simp at hmem
    | cons c rest ih =>
      rintro ⟨call, hmem, hfails⟩
      simp only [PollInputSource, walkDir]
      cases hw : walkFunc HandleFile queue c with
      | error msg => exact ⟨msg, queue, rfl⟩
      | ok queue1 =>
        simp only
        rcases List.mem_cons.1 hmem with rfl | hrest
        · obtain ⟨msg, hmsg⟩ := walkFunc_panics_of_fails HandleFile queue call hfails
          rw [hmsg] at hw
          cases hw
        · exact ih queue1 ⟨call, hrest, hfails⟩
  · intro queue calls
    induction calls generalizing queue with
    | nil =>
      intro queue1 err h
      simp only [PollInputSource, walkDir] at h
      cases h
      rfl
    | cons c rest ih =>
      intro queue1 err h
      simp only [PollInputSource, walkDir] at h
      cases hw : walkFunc HandleFile queue c with
      | error msg => rw [hw] at h; cases h
      | ok queue2 =>
        rw [hw] at h
        exact ih queue2 queue1 err h
  · intro fuel s w pre msg post htrace
    have hend := pollingWorkerTask_end W fuel s w
    have hchain := pollingWorkerTask_chain W fuel s w
    cases post with
    | nil =>
      refine ⟨rfl, ?_⟩
      rw [htrace] at hend
      simpa [PollEnd] using hend
    | cons b rest =>
      have hstep := chain_next hchain htrace
      cases hstep
  · intro fuel s w pre notify err post htrace
    have hend := pollingWorkerTask_end W fuel s { w with currentStatus := .Working }
    have hchain := pollingWorkerTask_chain W fuel s { w with currentStatus := .Working }
    cases post with
    | nil =>
      rw [htrace] at hend
      have hres : (pollingWorkerTask W fuel s { w with currentStatus := .Working }).result
          = .returned (some (pollError w.label err)) := by
        simpa [PollEnd] using hend
      refine ⟨rfl, hres, ?_⟩
      simp [Worker.Start, hres]
    | cons b rest =>
      have hstep := chain_next hchain htrace
      cases hstep
  · intro queue pre call post hfails
    induction pre generalizing queue with
    | nil =>
      obtain ⟨msg, hmsg⟩ := walkFunc_panics_of_fails HandleFile queue call hfails
      simp [PollInputSource, walkDir, hmsg]
    | cons c rest ih =>
      simp only [PollInputSource, walkDir, List.cons_append] at ih ⊢
      cases hw : walkFunc HandleFile queue c with
      | error msg => rfl
      | ok queue1 => exact ih queue1

/-- C6, amended, on the sample walk and on a run whose first poll panics: the
second wake-up that the channel holds is never taken. -/
theorem walk_error_ends_polling_witness :
    (∃ msg queue1, PollInputSource samplePaths [] sampleWalk = .panicked msg queue1) ∧
    (pollingWorkerTask scripted 5 panicScript (NewWorker "poll:0" .Import)).result
      = .panicked "PollInputSource failed - permission denied\n" :=
  ⟨(walk_error_ends_polling samplePaths scripted).1 [] sampleWalk
      ⟨{ path := "/in/locked", dir := none, err := some "permission denied" },
        by simp [sampleWalk], rfl⟩,
    ((walk_error_ends_polling samplePaths scripted).2.2.1 5 panicScript
      (NewWorker "poll:0" .Import) [.sleep (some (.value 1))]
      "PollInputSource failed - permission denied\n" [] (by decide)).2⟩

end TPA
